import Mathlib

/-!
# Verification of the meeting-bot admission/retry/shutdown core

Shallow embedding of the repository's `JobStore` (TaskSupervisor: admission
control, in-flight registry, shutdown flag, drain loop), its recursive
retry-with-backoff executor, and the interval/timeout bounded-wait polling
pattern used by the bot while waiting at a meeting lobby.

The embedding follows `src/src/lib/JobStore.ts` and the timer pattern of
`ZoomBot.joinMeeting` / `ZoomBot.dismissDeviceNotifications`.
-/

set_option autoImplicit false

namespace MeetingBot

/-- `JobInfo` record stored in the registry (`jobId`, `startedAt`, `metadata`).
Timestamps are modelled as `Nat` milliseconds; metadata as an optional
key-value list (it is opaque to the supervisor). -/
structure JobInfo where
  jobId : String
  startedAt : Nat
  metadata : Option (List (String × String))
deriving Repr, DecidableEq

/-- Model of `Map.set`: replace the value in place when the key is present
(JS `Map.set` keeps the original insertion position), otherwise append. -/
def mapSet (m : List (String × JobInfo)) (k : String) (v : JobInfo) :
    List (String × JobInfo) :=
  if m.any (fun p => p.1 == k) then
    m.map (fun p => if p.1 == k then (k, v) else p)
  else
    m ++ [(k, v)]

/-- Model of `Map.delete`: drop every entry with the given key. -/
def mapDelete (m : List (String × JobInfo)) (k : String) :
    List (String × JobInfo) :=
  m.filter (fun p => !(p.1 == k))

/-- Model of `Map.has`. -/
def hasKey (m : List (String × JobInfo)) (k : String) : Bool :=
  m.any (fun p => p.1 == k)

/-- State of `JobStore`: the `jobs` registry, the immutable `maxConcurrent`
bound, and the monotone `shutdownRequested` flag. -/
structure JobStore where
  jobs : List (String × JobInfo)
  maxConcurrent : Nat
  shutdownRequested : Bool
deriving Repr, DecidableEq

/-- The `JobStore` constructor: empty registry, shutdown flag clear. -/
def JobStore.init (maxConcurrent : Nat) : JobStore :=
  { jobs := [], maxConcurrent := maxConcurrent, shutdownRequested := false }

/-- Synchronous part of `JobStore.addJob`: reject when
`jobs.size >= maxConcurrent || shutdownRequested`, otherwise insert
`{jobId, startedAt, metadata}` and report acceptance.  Returns the updated
store and the `accepted` boolean. -/
def JobStore.addJob (s : JobStore) (jobId : String) (now : Nat)
    (metadata : Option (List (String × String))) : JobStore × Bool :=
  if s.jobs.length ≥ s.maxConcurrent ∨ s.shutdownRequested = true then
    (s, false)
  else
    ({ s with jobs := mapSet s.jobs jobId ⟨jobId, now, metadata⟩ }, true)

/-- The registry mutation performed by the `.finally` handler of the detached
execution: `this.jobs.delete(jobId)`. -/
def JobStore.removeJob (s : JobStore) (jobId : String) : JobStore :=
  { s with jobs := mapDelete s.jobs jobId }

/-- `JobStore.requestShutdown`: set the shutdown flag. -/
def JobStore.requestShutdown (s : JobStore) : JobStore :=
  { s with shutdownRequested := true }

/-- `JobStore.getActiveCount`: `this.jobs.size`. -/
def JobStore.getActiveCount (s : JobStore) : Nat :=
  s.jobs.length

/-- `JobStore.isShutdownRequested`. -/
def JobStore.isShutdownRequested (s : JobStore) : Bool :=
  s.shutdownRequested

/-- `JobStore.isFull`: `this.jobs.size >= this.maxConcurrent`. -/
def JobStore.isFull (s : JobStore) : Bool :=
  decide (s.jobs.length ≥ s.maxConcurrent)

/-- Errors reaching the retry executor: a `KnownError` carries a
`retryable` flag and a `maxRetries` budget; every other thrown value is
unclassified. -/
inductive TaskError where
  | known (name : String) (retryable : Bool) (maxRetries : Nat) : TaskError
  | unclassified (message : String) : TaskError
deriving Repr, DecidableEq

/-- The first guard of the catch block:
`error instanceof KnownError && !error.retryable`. -/
def knownNonRetryable : TaskError → Bool
  | .known _ r _ => !r
  | .unclassified _ => false

/-- The second guard of the catch block:
`error instanceof KnownError && error.retryable && (retryCount + 1) >= error.maxRetries`. -/
def knownRetryableExhausted (e : TaskError) (retryCount : Nat) : Bool :=
  match e with
  | .known _ r m => r && decide (retryCount + 1 ≥ m)
  | .unclassified _ => false

instance : DecidableEq (Except TaskError Unit) := fun a b =>
  match a, b with
  | .ok (), .ok () => .isTrue rfl
  | .ok (), .error _ => .isFalse (fun h => Except.noConfusion h)
  | .error _, .ok () => .isFalse (fun h => Except.noConfusion h)
  | .error e1, .error e2 =>
      if h : e1 = e2 then .isTrue (by rw [h])
      else .isFalse (fun hh => h (Except.error.inj hh))

/-- Observable trace of one `executeTaskWithRetry` run: how many times the
task body was invoked, the chronological list of `sleep` durations (ms), and
the final settled result. -/
structure RetryTrace where
  invocations : Nat
  sleeps : List Nat
  result : Except TaskError Unit
deriving Repr, DecidableEq

/-- `JobStore.executeTaskWithRetry`.  The task body is modelled as a function
from the invocation index to that invocation's outcome.  Mirrors the source:
on failure, a non-retryable `KnownError` and an exhausted retryable
`KnownError` are rethrown at once; otherwise `retryCount` is incremented, a
sleep of `retryCount * 30000` ms happens, and only then `retryCount < 3`
decides between a recursive retry and rethrowing. -/
def executeTaskWithRetry (task : Nat → Except TaskError Unit)
    (inv retryCount : Nat) : RetryTrace :=
  match task inv with
  | .ok _ => { invocations := 1, sleeps := [], result := .ok () }
  | .error e =>
    if knownNonRetryable e then
      { invocations := 1, sleeps := [], result := .error e }
    else if knownRetryableExhausted e retryCount then
      { invocations := 1, sleeps := [], result := .error e }
    else
      if h : retryCount + 1 < 3 then
        let t := executeTaskWithRetry task (inv + 1) (retryCount + 1)
        { invocations := 1 + t.invocations,
          sleeps := (retryCount + 1) * 30000 :: t.sleeps,
          result := t.result }
      else
        { invocations := 1, sleeps := [(retryCount + 1) * 30000],
          result := .error e }
termination_by 3 - retryCount
decreasing_by omega

/-- The promise chain attached to the detached execution in `addJob`:
`.then` logs success, `.catch` logs the failure, and `.finally` deletes the
job from the registry in both cases. -/
def JobStore.onTaskSettled (s : JobStore) (jobId : String)
    (outcome : Except TaskError Unit) : JobStore :=
  match outcome with
  | .ok _ => s.removeJob jobId
  | .error _ => s.removeJob jobId

/-- One step of the supervisor's cooperative event loop: an `addJob` request,
the settlement callback of a detached execution, or `requestShutdown`. -/
inductive JobStore.Step : JobStore → JobStore → Prop where
  | addJob (s : JobStore) (jobId : String) (now : Nat)
      (metadata : Option (List (String × String))) :
      JobStore.Step s (s.addJob jobId now metadata).1
  | taskSettled (s : JobStore) (jobId : String)
      (outcome : Except TaskError Unit) :
      JobStore.Step s (s.onTaskSettled jobId outcome)
  | requestShutdown (s : JobStore) :
      JobStore.Step s s.requestShutdown

/-- States reachable from a freshly constructed store. -/
def JobStore.Reachable (maxConcurrent : Nat) (s : JobStore) : Prop :=
  Relation.ReflTransGen JobStore.Step (JobStore.init maxConcurrent) s

/-- Sequence of `addJob` calls (fixed timestamp and no metadata, which the
admission decision never reads), returning the final store and the list of
`accepted` results in call order. -/
def JobStore.addAll (s : JobStore) (ids : List String) :
    JobStore × List Bool :=
  match ids with
  | [] => (s, [])
  | id :: rest =>
    let r1 := s.addJob id 0 none
    let r2 := r1.1.addAll rest
    (r2.1, r1.2 :: r2.2)

/-- The interval/timeout pair of `waitAtLobbyPromise`, as a discrete-event
run.  `check k` is the readiness outcome of the `k`-th `setInterval` firing
(at time `k * intervalMs`); the `setTimeout` at `timeoutMs` wins a tie, as it
was registered first.  Returns the resolution value and the number of `check`
invocations that ran: a ready check clears both timers and resolves `true`
(no invocation happens afterwards); when the timeout fires it clears the
interval and resolves `false`. -/
def pollFrom (check : Nat → Bool) (intervalMs timeoutMs k : Nat) :
    Bool × Nat :=
  if h : 0 < intervalMs ∧ k * intervalMs < timeoutMs then
    if check k then (true, k)
    else pollFrom check intervalMs timeoutMs (k + 1)
  else
    (false, k - 1)
termination_by timeoutMs - k * intervalMs
decreasing_by
  have h2 : (k + 1) * intervalMs = k * intervalMs + intervalMs :=
    Nat.succ_mul k intervalMs
  omega

/-- The bounded-wait polling primitive: ticks start at `k = 1` (the first
check happens only after one full interval). -/
def boundedPoll (check : Nat → Bool) (intervalMs timeoutMs : Nat) :
    Bool × Nat :=
  pollFrom check intervalMs timeoutMs 1

/-- The fixed polling interval of `waitForCompletion` (`setTimeout(..., 1000)`). -/
def pollIntervalMs : Nat := 1000

/-- The `checkCompletion` loop of `waitForCompletion`: `sizes t` is the
registry size observed by the check that runs `t` intervals after the call;
`fuel` bounds the simulated run.  Returns the index of the check at which the
promise resolves, when it resolves within the fuel. -/
def waitPoll (sizes : Nat → Nat) : Nat → Nat → Option Nat
  | t, 0 => if sizes t = 0 then some t else none
  | t, fuel + 1 => if sizes t = 0 then some t else waitPoll sizes (t + 1) fuel

/-- `JobStore.waitForCompletion`: return at once when the registry is empty
(`some 0`, no suspension); otherwise run `checkCompletion` immediately and
then once per second until the size reaches zero. -/
def waitForCompletion (sizes : Nat → Nat) (fuel : Nat) : Option Nat :=
  if sizes 0 = 0 then some 0 else waitPoll sizes 0 fuel

/-! ## Map model lemmas -/

lemma mapSet_length_le (m : List (String × JobInfo)) (k : String)
    (v : JobInfo) : (mapSet m k v).length ≤ m.length + 1 := by
  unfold mapSet
  split
  · simp
  · simp

lemma mapSet_of_fresh (m : List (String × JobInfo)) (k : String)
    (v : JobInfo) (h : hasKey m k = false) :
    mapSet m k v = m ++ [(k, v)] := by
  unfold mapSet
  unfold hasKey at h
  simp [h]

lemma hasKey_append (m1 m2 : List (String × JobInfo)) (k : String) :
    hasKey (m1 ++ m2) k = (hasKey m1 k || hasKey m2 k) := by
  simp [hasKey, List.any_append]

lemma hasKey_mapDelete_self (m : List (String × JobInfo)) (k : String) :
    hasKey (mapDelete m k) k = false := by
  induction m with
  | nil => rfl
  | cons p rest ih =>
    by_cases h : p.1 = k
    · simp only [mapDelete, List.filter, h, beq_self_eq_true, Bool.not_true]
      exact ih
    · have hb : (p.1 == k) = false := by simp [h]
      simp only [mapDelete, List.filter, hb, Bool.not_false, hasKey, List.any_cons]
      simp only [hb, Bool.false_or]
      exact ih

/-! ## Invariant preservation by supervisor steps -/

lemma addJob_of_shutdown (t : JobStore) (h : t.shutdownRequested = true)
    (id : String) (now : Nat) (md : Option (List (String × String))) :
    t.addJob id now md = (t, false) := by
  simp [JobStore.addJob, h]

lemma addJob_of_full (t : JobStore) (h : t.jobs.length ≥ t.maxConcurrent)
    (id : String) (now : Nat) (md : Option (List (String × String))) :
    t.addJob id now md = (t, false) := by
  simp [JobStore.addJob, h]

lemma step_preserves_bound (s t : JobStore) (h : JobStore.Step s t) :
    t.maxConcurrent = s.maxConcurrent ∧
    (s.jobs.length ≤ s.maxConcurrent → t.jobs.length ≤ t.maxConcurrent) := by
  cases h with
  | addJob id now md =>
    unfold JobStore.addJob
    split
    · exact ⟨rfl, fun h => h⟩
    · rename_i hcond
      push_neg at hcond
      refine ⟨rfl, fun _ => ?_⟩
      have h1 := mapSet_length_le s.jobs id ⟨id, now, md⟩
      have h2 : s.jobs.length < s.maxConcurrent := hcond.1
      simpa using Nat.le_trans h1 h2
  | taskSettled id outcome =>
    cases outcome with
    | ok u =>
      refine ⟨rfl, fun h => ?_⟩
      exact Nat.le_trans (List.length_filter_le _ _) h
    | error e =>
      refine ⟨rfl, fun h => ?_⟩
      exact Nat.le_trans (List.length_filter_le _ _) h
  | requestShutdown =>
    exact ⟨rfl, fun h => h⟩

lemma step_preserves_shutdown (s t : JobStore) (h : JobStore.Step s t)
    (hs : s.shutdownRequested = true) : t.shutdownRequested = true := by
  cases h with
  | addJob id now md =>
    unfold JobStore.addJob
    split
    · exact hs
    · exact hs
  | taskSettled id outcome =>
    cases outcome with
    | ok u => exact hs
    | error e => exact hs
  | requestShutdown => rfl

lemma addAll_fresh_spec (ids : List String) :
    ∀ s : JobStore, ids.Nodup → s.shutdownRequested = false →
    s.jobs.length + ids.length ≤ s.maxConcurrent →
    (∀ id ∈ ids, hasKey s.jobs id = false) →
    (s.addAll ids).2 = List.replicate ids.length true ∧
    (s.addAll ids).1 =
      { s with jobs :=
          s.jobs ++ ids.map (fun id => (id, ⟨id, 0, none⟩)) } := by
  induction ids with
  | nil =>
    intro s _ _ _ _
    constructor
    · rfl
    · simp [JobStore.addAll]
  | cons id rest ih =>
    intro s hnd hsd hcap hfresh
    have hlt : s.jobs.length < s.maxConcurrent := by
      simp only [List.length_cons] at hcap
      omega
    have hguard : ¬(s.jobs.length ≥ s.maxConcurrent ∨
        s.shutdownRequested = true) := by
      rw [hsd]
      simp
      omega
    have hfid : hasKey s.jobs id = false := hfresh id (List.mem_cons_self id rest)
    have hstep : s.addJob id 0 none =
        ({ s with jobs := s.jobs ++ [(id, ⟨id, 0, none⟩)] }, true) := by
      unfold JobStore.addJob
      rw [if_neg hguard, mapSet_of_fresh s.jobs id _ hfid]
    have hnd1 : rest.Nodup := (List.nodup_cons.mp hnd).2
    have hnotmem : id ∉ rest := (List.nodup_cons.mp hnd).1
    have hcap1 :
        (s.jobs ++ [(id, (⟨id, 0, none⟩ : JobInfo))]).length + rest.length ≤
          s.maxConcurrent := by
      simp only [List.length_append, List.length_cons, List.length_nil]
      simp only [List.length_cons] at hcap
      omega
    have hfresh1 : ∀ id' ∈ rest,
        hasKey (s.jobs ++ [(id, (⟨id, 0, none⟩ : JobInfo))]) id' = false := by
      intro id' hmem
      rw [hasKey_append]
      have h1 : hasKey s.jobs id' = false :=
        hfresh id' (List.mem_cons_of_mem id hmem)
      have h2 : hasKey [(id, (⟨id, 0, none⟩ : JobInfo))] id' = false := by
        have hne : id ≠ id' := fun he => hnotmem (he ▸ hmem)
        simp [hasKey, hne]
      rw [h1, h2]
      rfl
    have hrec := ih { s with jobs := s.jobs ++ [(id, ⟨id, 0, none⟩)] }
      hnd1 hsd hcap1 hfresh1
    constructor
    · show (s.addAll (id :: rest)).2 = _
      unfold JobStore.addAll
      rw [hstep]
      simp only []
      rw [hrec.1]
      simp [List.replicate_succ]
    · show (s.addAll (id :: rest)).1 = _
      unfold JobStore.addAll
      rw [hstep]
      simp only []
      rw [hrec.2]
      simp [List.append_assoc]

/-! ## Claim theorems -/

/-- C1: with `maxConcurrent = N`, no shutdown requested, admitting `N`
distinct ids yields `accepted = true` on every call and
`getActiveCount() = N`; any further `addJob` then returns
`accepted = false` and leaves the whole state unchanged. -/
theorem addJob_admission_to_capacity (N : Nat) (ids : List String)
    (hnd : ids.Nodup) (hlen : ids.length = N) :
    ((JobStore.init N).addAll ids).2 = List.replicate N true ∧
    ((JobStore.init N).addAll ids).1.getActiveCount = N ∧
    ∀ (id : String) (now : Nat) (md : Option (List (String × String))),
      ((JobStore.init N).addAll ids).1.addJob id now md =
        (((JobStore.init N).addAll ids).1, false) := by
  have hspec := addAll_fresh_spec ids (JobStore.init N) hnd rfl
    (by simp [JobStore.init, hlen]) (by intro id _; rfl)
  have hjobs : ((JobStore.init N).addAll ids).1.jobs =
      ids.map (fun id => (id, ⟨id, 0, none⟩)) := by
    rw [hspec.2]
    simp [JobStore.init]
  have hmax : ((JobStore.init N).addAll ids).1.maxConcurrent = N := by
    rw [hspec.2]
    rfl
  have hcount : ((JobStore.init N).addAll ids).1.getActiveCount = N := by
    unfold JobStore.getActiveCount
    rw [hjobs]
    simp [hlen]
  refine ⟨hlen ▸ hspec.1, hcount, ?_⟩
  intro id now md
  apply addJob_of_full
  unfold JobStore.getActiveCount at hcount
  omega

theorem addJob_admission_to_capacity_witness :
    ((JobStore.init 2).addAll ["a", "b"]).2 = List.replicate 2 true ∧
    ((JobStore.init 2).addAll ["a", "b"]).1.getActiveCount = 2 ∧
    ((JobStore.init 2).addAll ["a", "b"]).1.addJob "c" 0 none =
      (((JobStore.init 2).addAll ["a", "b"]).1, false) := by
  obtain ⟨h1, h2, h3⟩ :=
    addJob_admission_to_capacity 2 ["a", "b"] (by decide) rfl
  exact ⟨h1, h2, h3 "c" 0 none⟩

/-- C2: on every state reachable from a freshly constructed supervisor the
registry size never exceeds `maxConcurrent`: `addJob` inserts only after its
capacity check succeeds, and every other registry mutation only removes
entries. -/
theorem registry_size_invariant (N : Nat) (s : JobStore)
    (h : JobStore.Reachable N s) :
    s.getActiveCount ≤ s.maxConcurrent := by
  unfold JobStore.Reachable at h
  have hind : s.jobs.length ≤ s.maxConcurrent := by
    induction h with
    | refl => simp [JobStore.init]
    | tail hab hbc ih =>
      exact ((step_preserves_bound _ _ hbc).2 ih)
  exact hind

theorem registry_size_invariant_witness :
    JobStore.Reachable 3 ((JobStore.init 3).addJob "a" 0 none).1 ∧
    (((JobStore.init 3).addJob "a" 0 none).1).getActiveCount ≤
      (((JobStore.init 3).addJob "a" 0 none).1).maxConcurrent := by
  have hreach : JobStore.Reachable 3 ((JobStore.init 3).addJob "a" 0 none).1 :=
    Relation.ReflTransGen.tail Relation.ReflTransGen.refl
      (JobStore.Step.addJob (JobStore.init 3) "a" 0 none)
  exact ⟨hreach, registry_size_invariant 3 _ hreach⟩

/-- C3: from the moment `requestShutdown()` runs, the shutdown flag stays
`true` across every further supervisor step (no operation resets it), and in
every such later state `addJob` returns `accepted = false` with the state
unchanged, regardless of the registry size. -/
theorem shutdown_monotone_rejects_addJob (s t : JobStore)
    (h : Relation.ReflTransGen JobStore.Step s.requestShutdown t) :
    t.shutdownRequested = true ∧
    ∀ (id : String) (now : Nat) (md : Option (List (String × String))),
      t.addJob id now md = (t, false) := by
  have hflag : t.shutdownRequested = true := by
    induction h with
    | refl => rfl
    | tail hab hbc ih => exact step_preserves_shutdown _ _ hbc ih
  exact ⟨hflag, fun id now md => addJob_of_shutdown t hflag id now md⟩

theorem shutdown_monotone_rejects_addJob_witness :
    ((JobStore.init 1).requestShutdown).shutdownRequested = true ∧
    ((JobStore.init 1).requestShutdown).addJob "a" 0 none =
      ((JobStore.init 1).requestShutdown, false) := by
  obtain ⟨h1, h2⟩ := shutdown_monotone_rejects_addJob (JobStore.init 1) _
    Relation.ReflTransGen.refl
  exact ⟨h1, h2 "a" 0 none⟩

/-- C4: whatever result the detached retry execution settles with — success,
a non-retryable failure, exhausted retries, or any uncaught fault (any
`TaskError`) — the settlement handlers remove the job's entry from the
registry: the `.finally` deletion runs on both the fulfilled and the rejected
path. -/
theorem job_removed_on_any_terminal_outcome (s : JobStore) (jobId : String)
    (task : Nat → Except TaskError Unit) (rc : Nat) :
    hasKey
      (s.onTaskSettled jobId (executeTaskWithRetry task 0 rc).result).jobs
      jobId = false := by
  cases hres : (executeTaskWithRetry task 0 rc).result with
  | ok u =>
    show hasKey (mapDelete s.jobs jobId) jobId = false
    exact hasKey_mapDelete_self s.jobs jobId
  | error e =>
    show hasKey (mapDelete s.jobs jobId) jobId = false
    exact hasKey_mapDelete_self s.jobs jobId

/-- A task body every invocation of which throws a value that is not a
`KnownError`. -/
def alwaysUnclassified (_n : Nat) : Except TaskError Unit :=
  .error (.unclassified "boom")

lemma alwaysUnclassified_run :
    executeTaskWithRetry alwaysUnclassified 0 0 =
      { invocations := 3, sleeps := [30000, 60000, 90000],
        result := .error (.unclassified "boom") } := by
  simp [executeTaskWithRetry, alwaysUnclassified, knownNonRetryable,
    knownRetryableExhausted]

/-- C5: a task failing on every invocation with no declared classification is
invoked exactly 3 times (the global hardcoded cap), with a wait of
`1 * 30000` ms between the 1st and 2nd invocations and `2 * 30000` ms between
the 2nd and 3rd (the sleep list is chronological, so these are its first two
entries), after which the failure is propagated. -/
theorem unclassified_failure_three_invocations
    (task : Nat → Except TaskError Unit)
    (h : ∀ n, ∃ m, task n = .error (.unclassified m)) :
    (executeTaskWithRetry task 0 0).invocations = 3 ∧
    (executeTaskWithRetry task 0 0).sleeps = [30000, 60000, 90000] ∧
    ∃ m, (executeTaskWithRetry task 0 0).result =
      .error (.unclassified m) := by
  obtain ⟨m0, h0⟩ := h 0
  obtain ⟨m1, h1⟩ := h 1
  obtain ⟨m2, h2⟩ := h 2
  have hrun : executeTaskWithRetry task 0 0 =
      { invocations := 3, sleeps := [30000, 60000, 90000],
        result := .error (.unclassified m2) } := by
    simp [executeTaskWithRetry, h0, h1, h2, knownNonRetryable,
      knownRetryableExhausted]
  rw [hrun]
  exact ⟨rfl, rfl, m2, rfl⟩

theorem unclassified_failure_three_invocations_witness :
    (executeTaskWithRetry alwaysUnclassified 0 0).invocations = 3 ∧
    (executeTaskWithRetry alwaysUnclassified 0 0).sleeps =
      [30000, 60000, 90000] ∧
    ∃ m, (executeTaskWithRetry alwaysUnclassified 0 0).result =
      .error (.unclassified m) :=
  unclassified_failure_three_invocations alwaysUnclassified
    (fun _ => ⟨"boom", rfl⟩)

/-- C6 counterexample: on the always-failing unclassified run the claim "the
wait occurs only before a next attempt that actually takes place, never after
the final failed attempt on the exhausted-propagation path" would force the
number of sleeps to be one less than the number of invocations; the code
produces 3 sleeps for 3 invocations (`[30000, 60000, 90000]`), the last one
after the final failed attempt. -/
theorem backoff_precedes_exhaustion_check_cex :
    ¬ ((executeTaskWithRetry alwaysUnclassified 0 0).sleeps.length =
        (executeTaskWithRetry alwaysUnclassified 0 0).invocations - 1) := by
  rw [alwaysUnclassified_run]
  decide

/-- C6 amended: in the retry loop, after the attempt counter is incremented
the executor first waits `attempt * 30000` ms and only then checks exhaustion
(`attempt < 3`); hence on a run whose every invocation fails unclassified a
backoff wait follows every failed attempt — including the final one on the
exhausted-propagation path — so the number of sleeps equals the number of
invocations, and the failure is still propagated with no further attempt once
`attempt ≥ 3`. -/
theorem backoff_follows_every_failed_attempt
    (task : Nat → Except TaskError Unit) (rc : Nat)
    (h : ∀ n, ∃ m, task n = .error (.unclassified m)) :
    (executeTaskWithRetry task 0 rc).sleeps.length =
      (executeTaskWithRetry task 0 rc).invocations ∧
    ∃ m, (executeTaskWithRetry task 0 rc).result =
      .error (.unclassified m) := by
  obtain ⟨m0, h0⟩ := h 0
  obtain ⟨m1, h1⟩ := h 1
  obtain ⟨m2, h2⟩ := h 2
  match rc with
  | 0 =>
    have hrun : executeTaskWithRetry task 0 0 =
        { invocations := 3, sleeps := [30000, 60000, 90000],
          result := .error (.unclassified m2) } := by
      simp [executeTaskWithRetry, h0, h1, h2, knownNonRetryable,
        knownRetryableExhausted]
    rw [hrun]
    exact ⟨rfl, m2, rfl⟩
  | 1 =>
    have hrun : executeTaskWithRetry task 0 1 =
        { invocations := 2, sleeps := [60000, 90000],
          result := .error (.unclassified m1) } := by
      simp [executeTaskWithRetry, h0, h1, knownNonRetryable,
        knownRetryableExhausted]
    rw [hrun]
    exact ⟨rfl, m1, rfl⟩
  | (r + 2) =>
    have hlt : ¬ (r + 2 + 1 < 3) := by omega
    have hrun : executeTaskWithRetry task 0 (r + 2) =
        { invocations := 1, sleeps := [(r + 3) * 30000],
          result := .error (.unclassified m0) } := by
      simp [executeTaskWithRetry, h0, knownNonRetryable,
        knownRetryableExhausted, hlt]
    rw [hrun]
    exact ⟨rfl, m0, rfl⟩

theorem backoff_follows_every_failed_attempt_witness :
    (executeTaskWithRetry alwaysUnclassified 0 0).sleeps.length =
      (executeTaskWithRetry alwaysUnclassified 0 0).invocations ∧
    ∃ m, (executeTaskWithRetry alwaysUnclassified 0 0).result =
      .error (.unclassified m) :=
  backoff_follows_every_failed_attempt alwaysUnclassified 0
    (fun _ => ⟨"boom", rfl⟩)

/-- A task body every invocation of which fails retryably with a declared
budget of 2. -/
def alwaysRetryableTwo (_n : Nat) : Except TaskError Unit :=
  .error (.known "KnownError" true 2)

/-- C7: a task failing on every invocation with `retryable = true` and a
declared `maxRetries` is invoked `min (max maxRetries 1) 3` times: the
failure is propagated as exhausted as soon as the attempt count reaches the
declared `maxRetries` or the global hardcoded cap of 3, whichever comes
first — in particular at most 2 invocations for `maxRetries = 2`. -/
theorem retryable_capped_by_declared_and_global
    (nm : String) (mr : Nat) (task : Nat → Except TaskError Unit)
    (h : ∀ n, task n = .error (.known nm true mr)) :
    (executeTaskWithRetry task 0 0).invocations = min (max mr 1) 3 ∧
    (executeTaskWithRetry task 0 0).result =
      .error (.known nm true mr) := by
  have h0 := h 0
  have h1 := h 1
  have h2 := h 2
  match mr with
  | 0 =>
    constructor <;>
      simp [executeTaskWithRetry, h0, knownNonRetryable,
        knownRetryableExhausted]
  | 1 =>
    constructor <;>
      simp [executeTaskWithRetry, h0, knownNonRetryable,
        knownRetryableExhausted]
  | 2 =>
    constructor <;>
      simp [executeTaskWithRetry, h0, h1, knownNonRetryable,
        knownRetryableExhausted]
  | 3 =>
    constructor <;>
      simp [executeTaskWithRetry, h0, h1, h2, knownNonRetryable,
        knownRetryableExhausted]
  | (m + 4) =>
    constructor <;>
      simp [executeTaskWithRetry, h0, h1, h2, knownNonRetryable,
        knownRetryableExhausted]

theorem retryable_capped_by_declared_and_global_witness :
    (executeTaskWithRetry alwaysRetryableTwo 0 0).invocations =
      min (max 2 1) 3 ∧
    (executeTaskWithRetry alwaysRetryableTwo 0 0).result =
      .error (.known "KnownError" true 2) :=
  retryable_capped_by_declared_and_global "KnownError" 2 alwaysRetryableTwo
    (fun _ => rfl)

/-- A task body whose first invocation fails with a non-retryable
classification. -/
def nonRetryableOnce (_n : Nat) : Except TaskError Unit :=
  .error (.known "KnownError" false 5)

/-- C8: a task whose invocation fails with a classification explicitly marked
`retryable = false` is invoked exactly once, with no backoff wait, and the
failure is propagated immediately, whatever the declared retry budget and
whatever the incoming attempt counter. -/
theorem nonretryable_single_invocation
    (nm : String) (mr rc : Nat) (task : Nat → Except TaskError Unit)
    (h : task 0 = .error (.known nm false mr)) :
    executeTaskWithRetry task 0 rc =
      { invocations := 1, sleeps := [],
        result := .error (.known nm false mr) } := by
  simp [executeTaskWithRetry, h, knownNonRetryable]

theorem nonretryable_single_invocation_witness :
    executeTaskWithRetry nonRetryableOnce 0 0 =
      { invocations := 1, sleeps := [],
        result := .error (.known "KnownError" false 5) } :=
  nonretryable_single_invocation "KnownError" 5 0 nonRetryableOnce rfl

/-! ## Bounded-poll lemmas -/

lemma pollFrom_out (check : Nat → Bool) (i t k : Nat)
    (hout : ¬ (k * i < t)) :
    pollFrom check i t k = (false, k - 1) := by
  unfold pollFrom
  simp [hout]

lemma pollFrom_step (check : Nat → Bool) (i t k : Nat) (hi : 0 < i)
    (hin : k * i < t) (hc : check k = false) :
    pollFrom check i t k = pollFrom check i t (k + 1) := by
  rw [pollFrom]
  simp [hi, hin, hc]

lemma pollFrom_hit (check : Nat → Bool) (i t k : Nat) (hi : 0 < i)
    (hin : k * i < t) (hc : check k = true) :
    pollFrom check i t k = (true, k) := by
  rw [pollFrom]
  simp [hi, hin, hc]

lemma pollFrom_ready (check : Nat → Bool) (i t k0 : Nat) (hi : 0 < i)
    (hk0t : k0 * i < t) (hck0 : check k0 = true)
    (hprev : ∀ j, j < k0 → 0 < j → check j = false) :
    ∀ d k, 0 < k → k0 = k + d → pollFrom check i t k = (true, k0) := by
  intro d
  induction d with
  | zero =>
    intro k hk hkd
    have hk0 : k = k0 := by omega
    subst hk0
    exact pollFrom_hit check i t k hi hk0t hck0
  | succ d ih =>
    intro k hk hkd
    have hklt : k < k0 := by omega
    have hcf : check k = false := hprev k hklt hk
    have hkin : k * i < t :=
      lt_trans (Nat.mul_lt_mul_of_lt_of_le hklt (le_refl i) hi) hk0t
    rw [pollFrom_step check i t k hi hkin hcf]
    exact ih (k + 1) (by omega) (by omega)

lemma pollFrom_all_false (check : Nat → Bool) (i t : Nat) (hi : 0 < i)
    (hall : ∀ j, check j = false) :
    ∀ n k, 0 < k → t - k * i ≤ n →
      pollFrom check i t k = (false, max (k - 1) ((t - 1) / i)) := by
  intro n
  induction n with
  | zero =>
    intro k hk hle
    have harith : ∀ K, t - K ≤ 0 → ¬ (K < t) := by
      intro K hK
      omega
    have hout := harith (k * i) hle
    rw [pollFrom_out check i t k hout]
    have h1 : (t - 1) / i < k := by
      rw [Nat.div_lt_iff_lt_mul hi]
      have h2 : ∀ K, ¬ (K < t) → 0 < K → t - 1 < K := by
        intro K hK hpos
        omega
      exact h2 (k * i) hout (Nat.mul_pos hk hi)
    have h3 : ∀ D, D < k → max (k - 1) D = k - 1 := by
      intro D hD
      exact Nat.max_eq_left (by omega)
    rw [h3 _ h1]
  | succ n ih =>
    intro k hk hle
    by_cases hin : k * i < t
    · rw [pollFrom_step check i t k hi hin (hall k)]
      have hrel : (k + 1) * i = k * i + i := Nat.succ_mul k i
      have hmeas : t - (k + 1) * i ≤ n := by
        have h4 : ∀ A B, B = A + i → A < t → t - A ≤ n + 1 → t - B ≤ n := by
          intro A B hAB hAt hAn
          omega
        exact h4 (k * i) ((k + 1) * i) hrel hin hle
      rw [ih (k + 1) (by omega) hmeas]
      have hkle : k ≤ (t - 1) / i := by
        rw [Nat.le_div_iff_mul_le hi]
        have h5 : ∀ A, A < t → A ≤ t - 1 := by
          intro A hA
          omega
        exact h5 _ hin
      have h6 : ∀ D, k ≤ D →
          max (k + 1 - 1) D = D ∧ max (k - 1) D = D := by
        intro D hD
        exact ⟨Nat.max_eq_right (by omega), Nat.max_eq_right (by omega)⟩
      obtain ⟨h6a, h6b⟩ := h6 _ hkle
      rw [h6a, h6b]
    · rw [pollFrom_out check i t k hin]
      have h1 : (t - 1) / i < k := by
        rw [Nat.div_lt_iff_lt_mul hi]
        have h2 : ∀ K, ¬ (K < t) → 0 < K → t - 1 < K := by
          intro K hK hpos
          omega
        exact h2 (k * i) hin (Nat.mul_pos hk hi)
      have h3 : ∀ D, D < k → max (k - 1) D = k - 1 := by
        intro D hD
        exact Nat.max_eq_left (by omega)
      rw [h3 _ h1]

/-- C9: the bounded-wait interval/timeout pair resolves `true` at the first
tick whose check reports ready, and the tick count equals that tick — the
interval and timeout are cleared, so no further `check` invocation runs after
resolution; with no ready invocation it resolves `false` when the timeout
elapses, after exactly the `(t - 1) / i` interval ticks that fit strictly
before the timeout, and `check` is not invoked afterwards. -/
theorem bounded_poll_resolution (check : Nat → Bool) (i t : Nat)
    (hi : 0 < i) :
    (∀ k0, 0 < k0 → k0 * i < t → check k0 = true →
      (∀ j, j < k0 → 0 < j → check j = false) →
      boundedPoll check i t = (true, k0)) ∧
    ((∀ j, check j = false) →
      boundedPoll check i t = (false, (t - 1) / i)) := by
  constructor
  · intro k0 hk0 hk0t hck0 hprev
    unfold boundedPoll
    exact pollFrom_ready check i t k0 hi hk0t hck0 hprev (k0 - 1) 1
      Nat.one_pos (by omega)
  · intro hall
    unfold boundedPoll
    rw [pollFrom_all_false check i t hi hall (t - 1 * i) 1 Nat.one_pos le_rfl]
    simp

theorem bounded_poll_resolution_witness :
    boundedPoll (fun k => decide (k = 3)) 100 500 = (true, 3) ∧
    boundedPoll (fun _ => false) 100 500 = (false, 4) := by
  constructor
  · exact (bounded_poll_resolution (fun k => decide (k = 3)) 100 500
      (by decide)).1 3 (by decide) (by decide) (by decide) (by decide)
  · have h := (bounded_poll_resolution (fun _ => false) 100 500
      (by decide)).2 (fun _ => rfl)
    simpa using h

/-! ## Drain-loop lemmas -/

lemma waitPoll_sound (sizes : Nat → Nat) :
    ∀ fuel t r, waitPoll sizes t fuel = some r →
      sizes r = 0 ∧ t ≤ r ∧ ∀ u, t ≤ u → u < r → sizes u ≠ 0 := by
  intro fuel
  induction fuel with
  | zero =>
    intro t r h
    unfold waitPoll at h
    by_cases hs : sizes t = 0
    · rw [if_pos hs] at h
      cases h
      exact ⟨hs, le_rfl, fun u hu1 hu2 => absurd (lt_of_le_of_lt hu1 hu2)
        (lt_irrefl t)⟩
    · rw [if_neg hs] at h
      cases h
  | succ fuel ih =>
    intro t r h
    unfold waitPoll at h
    by_cases hs : sizes t = 0
    · rw [if_pos hs] at h
      cases h
      exact ⟨hs, le_rfl, fun u hu1 hu2 => absurd (lt_of_le_of_lt hu1 hu2)
        (lt_irrefl t)⟩
    · rw [if_neg hs] at h
      obtain ⟨h1, h2, h3⟩ := ih (t + 1) r h
      refine ⟨h1, by omega, fun u hu1 hu2 => ?_⟩
      by_cases hut : u = t
      · rw [hut]
        exact hs
      · exact h3 u (by omega) hu2

/-- C10: `waitForCompletion` resolves at once (at check index 0, before any
one-second suspension) when the registry is empty at the call; whenever it
resolves at check index `r`, the size observed there is zero and every
earlier observation was non-zero — it never resolves while a job is still
registered. -/
theorem wait_for_completion_drain (sizes : Nat → Nat) (fuel : Nat) :
    (sizes 0 = 0 → waitForCompletion sizes fuel = some 0) ∧
    (∀ r, waitForCompletion sizes fuel = some r →
      sizes r = 0 ∧ ∀ u, u < r → sizes u ≠ 0) := by
  constructor
  · intro h0
    unfold waitForCompletion
    rw [if_pos h0]
  · intro r h
    unfold waitForCompletion at h
    by_cases h0 : sizes 0 = 0
    · rw [if_pos h0] at h
      cases h
      exact ⟨h0, fun u hu => absurd hu (Nat.not_lt_zero u)⟩
    · rw [if_neg h0] at h
      obtain ⟨h1, _, h3⟩ := waitPoll_sound sizes fuel 0 r h
      exact ⟨h1, fun u hu => h3 u (Nat.zero_le u) hu⟩

theorem wait_for_completion_drain_witness :
    waitForCompletion (fun _ => 0) 0 = some 0 ∧
    waitForCompletion (fun u => 2 - u) 5 = some 2 ∧
    (fun u => 2 - u) 2 = 0 ∧ (fun u => 2 - u) 1 ≠ 0 := by
  have ha := (wait_for_completion_drain (fun _ => 0) 0).1 rfl
  have hb := (wait_for_completion_drain (fun u => 2 - u) 5).2 2 (by decide)
  exact ⟨ha, by decide, hb.1, hb.2 1 (by decide)⟩

end MeetingBot
